import Mathlib

/-!
Shallow embedding of the `smile_volume` core (aramshiva/risus) in Lean 4.

Python floats are embedded as exact rationals (`ℚ`); Python `int` as `ℤ`
(counters, which start at 0 and are only incremented or reset, as `ℕ`);
Python `None` / optional values as `Option`; a raised `ValueError` as
`Except.error`.  Wall-clock timestamps are passed explicitly as `ℚ`
arguments, turning the stateful Python methods into pure state-passing
functions.
-/

namespace SmileVolume

/-- `SmileState` enum from `state.py`. -/
inductive SmileState where
  | NOT_SMILING
  | SMILING
deriving DecidableEq, Repr

/-- State of `HysteresisStateMachine` (`state.py`): configured thresholds,
frame counts, current state, and the two private consecutive-frame
counters `_on_counter` / `_off_counter`. -/
structure HysteresisStateMachine where
  on_threshold : ℚ
  off_threshold : ℚ
  on_frames : ℤ
  off_frames : ℤ
  state : SmileState
  onCounter : ℕ
  offCounter : ℕ
deriving DecidableEq, Repr

namespace HysteresisStateMachine

/-- The field initialisation performed by `HysteresisStateMachine.__init__`
after the threshold check passes (`state.py` lines 33-40). -/
def initFields (onT offT : ℚ) (onF offF : ℤ) : HysteresisStateMachine :=
  ⟨onT, offT, onF, offF, SmileState.NOT_SMILING, 0, 0⟩

/-- `HysteresisStateMachine.__init__` (`state.py` lines 16-40): raises
`ValueError` when `off_threshold >= on_threshold`, otherwise constructs the
machine in state `NOT_SMILING` with both counters at 0. -/
def construct (onT offT : ℚ) (onF offF : ℤ) : Except String HysteresisStateMachine :=
  if offT ≥ onT then
    Except.error "off_threshold must be < on_threshold for hysteresis"
  else
    Except.ok (initFields onT offT onF offF)

/-- `update`'s first step (`state.py` lines 52-54): a `None` score (no face
detected) is treated as score `0.0`. -/
def toScore : Option ℚ → ℚ
  | none => 0
  | some s => s

/-- `HysteresisStateMachine.update` (`state.py` lines 42-81), returning the
new machine state together with the Python return value
`(current_state, state_changed)`. -/
def update (m : HysteresisStateMachine) (score : Option ℚ) :
    HysteresisStateMachine × SmileState × Bool :=
  let s := toScore score
  let m' :=
    match m.state with
    | SmileState.NOT_SMILING =>
        if s ≥ m.on_threshold then
          if ((m.onCounter + 1 : ℕ) : ℤ) ≥ m.on_frames then
            { m with state := SmileState.SMILING, onCounter := 0, offCounter := 0 }
          else
            { m with onCounter := m.onCounter + 1, offCounter := 0 }
        else
          { m with onCounter := 0 }
    | SmileState.SMILING =>
        if s ≤ m.off_threshold then
          if ((m.offCounter + 1 : ℕ) : ℤ) ≥ m.off_frames then
            { m with state := SmileState.NOT_SMILING, offCounter := 0, onCounter := 0 }
          else
            { m with offCounter := m.offCounter + 1, onCounter := 0 }
        else
          { m with offCounter := 0 }
  (m', m'.state, decide (m'.state ≠ m.state))

/-- Repeated `update` calls over a list of scores, keeping only the final
machine state. -/
def steps (m : HysteresisStateMachine) (scores : List (Option ℚ)) :
    HysteresisStateMachine :=
  scores.foldl (fun acc s => (update acc s).1) m

/-- Repeated `update` calls over a list of scores, collecting each call's
return value `(current_state, state_changed)`. -/
def updateRun (m : HysteresisStateMachine) (scores : List (Option ℚ)) :
    HysteresisStateMachine × List (SmileState × Bool) :=
  match scores with
  | [] => (m, [])
  | s :: rest =>
      let r := update m s
      let tail := updateRun r.1 rest
      (tail.1, r.2 :: tail.2)

end HysteresisStateMachine

/-- `Calibrator._capture_average_score` (`calibration.py` lines 19-55),
restricted to its data content: `scores` is the list of non-`None` samples
collected during the session; returns `None` when it is empty, otherwise
the arithmetic mean. -/
def captureAverageScore : List ℚ → Option ℚ
  | [] => none
  | s :: rest => some (((s :: rest).sum) / (((s :: rest).length : ℕ) : ℚ))

/-- The margin computation in `Calibrator.run` (`calibration.py` line 85):
`margin = (smile_score - neutral_score) * 0.15`. -/
def calibMargin (neutral smiling : ℚ) : ℚ :=
  (smiling - neutral) * (15 / 100)

/-- `Calibrator.run` (`calibration.py` lines 57-95): two sampling sessions
(neutral, then smiling); if either yields no samples the whole run returns
`(None, None)`; otherwise thresholds are derived with the 15% margin and
returned as `(smile_on, smile_off)`. -/
def calibratorRun (neutralSamples smileSamples : List ℚ) :
    Option ℚ × Option ℚ :=
  match captureAverageScore neutralSamples with
  | none => (none, none)
  | some neutral_score =>
      match captureAverageScore smileSamples with
      | none => (none, none)
      | some smile_score =>
          let margin := calibMargin neutral_score smile_score
          (some (smile_score - margin), some (neutral_score + margin))

/-- The threshold application in `SmileVolumeController.calibrate`
(`__main__.py` lines 145-151): when both calibration results are present
they are assigned directly onto the state machine's threshold fields (no
re-validation); otherwise the machine is left untouched. -/
def applyCalibration (m : HysteresisStateMachine)
    (result : Option ℚ × Option ℚ) : HysteresisStateMachine :=
  match result with
  | (some smile_on, some smile_off) =>
      { m with on_threshold := smile_on, off_threshold := smile_off }
  | _ => m

/-- State of `VolumeController` (`volume.py`): the rate-limit interval and
the last committed value/timestamp. -/
structure VolumeController where
  min_interval_ms : ℤ
  last_set_time : ℚ
  last_set_value : Option ℤ
deriving DecidableEq, Repr

namespace VolumeController

/-- `VolumeController.__init__` (`volume.py` lines 11-18). -/
def construct (minIntervalMs : ℤ) : VolumeController :=
  ⟨minIntervalMs, 0, none⟩

/-- The clamp in `set_volume` (`volume.py` line 41): `max(0, min(100, int(pct)))`. -/
def clampPct (pct : ℤ) : ℤ :=
  max 0 (min 100 pct)

/-- `VolumeController.set_volume` (`volume.py` lines 33-52), with the
current wall-clock time `now` (seconds) passed explicitly.  Returns the new
controller state and whether an external actuator command was issued
(`True` = the `osascript` call ran; `False` = suppressed by the rate
limiter). -/
def set_volume (c : VolumeController) (now : ℚ) (pct : ℤ) (force : Bool) :
    VolumeController × Bool :=
  let p := clampPct pct
  let elapsed_ms := (now - c.last_set_time) * 1000
  if ¬force ∧ c.last_set_value = some p ∧ elapsed_ms < (c.min_interval_ms : ℚ) then
    (c, false)
  else
    ({ c with last_set_time := now, last_set_value := some p }, true)

end VolumeController

/-- The Signal Conditioner state carried by `SmileDetector` (`detector.py`):
EMA smoothing factor, face timeout, the EMA accumulator `smoothed_score`,
and the `last_face_time` timestamp. -/
structure SmileDetector where
  ema_beta : ℚ
  face_timeout_ms : ℚ
  smoothed_score : ℚ
  last_face_time : ℚ
deriving DecidableEq, Repr

namespace SmileDetector

/-- The signal-conditioning core of `SmileDetector.get_smile_score`
(`detector.py` lines 147-169), with the raw per-frame happiness score (or
`None` when no face was detected this cycle) and the current time `now`
(seconds) passed explicitly.

* Present raw score: the EMA accumulator is updated as
  `beta * raw + (1 - beta) * accum` (no clamping of `raw` occurs in the
  source), `last_face_time` is set to `now`, and the new accumulator value
  is returned.
* Absent: if `(now - last_face_time) * 1000 > face_timeout_ms` the result
  is `None`; otherwise the unchanged accumulator value is returned.  The
  detector state is not mutated on either absent branch. -/
def observe (d : SmileDetector) (now : ℚ) (raw : Option ℚ) :
    SmileDetector × Option ℚ :=
  match raw with
  | some raw_score =>
      let s := d.ema_beta * raw_score + (1 - d.ema_beta) * d.smoothed_score
      ({ d with smoothed_score := s, last_face_time := now }, some s)
  | none =>
      let elapsed_ms := (now - d.last_face_time) * 1000
      if elapsed_ms > d.face_timeout_ms then
        (d, none)
      else
        (d, some d.smoothed_score)

/-- Iterated `observe` with a constant present raw score, at an arbitrary
sequence of call times. -/
def observeIter (d : SmileDetector) (raw : ℚ) (ts : ℕ → ℚ) : ℕ → SmileDetector
  | 0 => d
  | n + 1 => ((observeIter d raw ts n).observe (ts n) (some raw)).1

/-- Folding `observe` over an arbitrary list of `(time, raw)` cycles. -/
def observeFold (d : SmileDetector) (inputs : List (ℚ × Option ℚ)) :
    SmileDetector :=
  inputs.foldl (fun acc p => (acc.observe p.1 p.2).1) d

/-- Modelled from the spec: the variant of `observe` the spec describes in
"If `raw_score` is outside [0,1], clamp before smoothing (defensive)" — a
present raw score is clamped into `[0,1]` before the EMA update.  The
source (`detector.py` lines 147-161) contains no such clamp; this
definition exists only to be compared with `observe`. -/
def observeClamped (d : SmileDetector) (now : ℚ) (raw : Option ℚ) :
    SmileDetector × Option ℚ :=
  observe d now (raw.map (fun r => max 0 (min 1 r)))

end SmileDetector

namespace HysteresisStateMachine

/-- The last `k` entries of a score trace all satisfy `p` (and the trace is
at least `k` long). -/
def tailQualified (p : Option ℚ → Prop) (k : ℕ) (tr : List (Option ℚ)) : Prop :=
  k ≤ tr.length ∧ ∀ x ∈ tr.reverse.take k, p x

/-- The counter invariant maintained by `update`: while the machine sits in
`NOT_SMILING`, `_on_counter` counts a suffix of consecutive cycles whose
score reached `on_threshold`; while it sits in `SMILING`, `_off_counter`
counts a suffix of consecutive cycles whose score fell to `off_threshold`. -/
def CounterInv (m0 : HysteresisStateMachine) (tr : List (Option ℚ)) : Prop :=
  ((steps m0 tr).state = SmileState.NOT_SMILING →
      tailQualified (fun x => toScore x ≥ m0.on_threshold) (steps m0 tr).onCounter tr) ∧
  ((steps m0 tr).state = SmileState.SMILING →
      tailQualified (fun x => toScore x ≤ m0.off_threshold) (steps m0 tr).offCounter tr)

end HysteresisStateMachine

end SmileVolume

namespace SmileVolume

open HysteresisStateMachine VolumeController SmileDetector

/-! ### Helper lemmas -/

/-- The mean of a nonempty constant list is that constant. -/
lemma captureAverageScore_const (l : List ℚ) (c : ℚ) (hne : l ≠ [])
    (hc : ∀ x ∈ l, x = c) : captureAverageScore l = some c := by
  cases l with
  | nil => exact absurd rfl hne
  | cons a rest =>
      have hsum : (a :: rest).sum = ((a :: rest).length : ℚ) * c := by
        clear hne
        induction rest generalizing a with
        | nil => simp [hc a (by simp)]
        | cons b bs ih =>
            have ha := hc a (by simp)
            have hrest : ∀ x ∈ b :: bs, x = c := fun x hx => hc x (by simp [hx])
            have := ih b hrest
            simp only [List.sum_cons, List.length_cons] at this ⊢
            rw [ha, this]
            push_cast
            ring
      have hlen : ((a :: rest).length : ℚ) ≠ 0 :=
        Nat.cast_ne_zero.mpr (by simp)
      simp only [captureAverageScore, hsum]
      rw [mul_comm, mul_div_assoc, div_self hlen, mul_one]

/-! ### C3 -/

/-- C3: with `on_threshold=0.5`, `off_threshold=0.15`, `on_frames=3`,
`off_frames=5`, starting from the initial `NOT_SMILING` state, the scores
`[0.6, 0.6, 0.6]` produce `changed = true` with state `SMILING` exactly on
the 3rd call, and the subsequent scores `[0.1, 0.1, 0.1, 0.1, 0.1]` produce
`changed = true` with state `NOT_SMILING` exactly on the 5th of those
calls, not earlier. -/
theorem end_to_end_scenario :
    (updateRun (initFields (1/2) (15/100) 3 5)
        [some (6/10), some (6/10), some (6/10),
         some (1/10), some (1/10), some (1/10), some (1/10), some (1/10)]).2 =
      [(SmileState.NOT_SMILING, false), (SmileState.NOT_SMILING, false),
       (SmileState.SMILING, true), (SmileState.SMILING, false),
       (SmileState.SMILING, false), (SmileState.SMILING, false),
       (SmileState.SMILING, false), (SmileState.NOT_SMILING, true)] := by
  norm_num [updateRun, update, toScore, initFields]
  decide

/-! ### C4 -/

/-- C4: a calibration whose two sessions observe the constant scores
`neutral = 0.1` and `smiling = 0.9` derives
`margin = (0.9 - 0.1) * 0.15 = 0.12`, `on_threshold = 0.9 - 0.12 = 0.78`
and `off_threshold = 0.1 + 0.12 = 0.22` (the run returns the pair
`(smile_on, smile_off)`). -/
theorem calibration_constant_sessions (ns ss : List ℚ)
    (hn : ns ≠ []) (hs : ss ≠ [])
    (hcn : ∀ x ∈ ns, x = 1/10) (hcs : ∀ x ∈ ss, x = 9/10) :
    calibMargin (1/10) (9/10) = 12/100 ∧
    calibratorRun ns ss = (some (78/100), some (22/100)) := by
  constructor
  · norm_num [calibMargin]
  · rw [calibratorRun, captureAverageScore_const ns (1/10) hn hcn,
      captureAverageScore_const ss (9/10) hs hcs]
    norm_num [calibMargin]

/-- Witness for C4 at two concrete constant sessions. -/
theorem calibration_constant_sessions_witness :
    calibMargin (1/10) (9/10) = 12/100 ∧
    calibratorRun [1/10, 1/10, 1/10] [9/10, 9/10] = (some (78/100), some (22/100)) :=
  calibration_constant_sessions [1/10, 1/10, 1/10] [9/10, 9/10]
    (by simp) (by simp) (by intro x hx; simpa using hx) (by intro x hx; simpa using hx)

/-! ### C5 -/

/-- C5: if either sampling session collects zero (non-absent) samples, the
whole calibration returns `(None, None)` — no thresholds — and applying
that result to any existing state machine leaves it completely unmodified
(in particular a failed second session never applies a threshold derived
from the first session's mean). -/
theorem calibration_empty_session_fails (ns ss : List ℚ)
    (m : HysteresisStateMachine) (h : ns = [] ∨ ss = []) :
    calibratorRun ns ss = (none, none) ∧
    applyCalibration m (calibratorRun ns ss) = m := by
  have hrun : calibratorRun ns ss = (none, none) := by
    rcases h with h | h
    · subst h
      rfl
    · subst h
      cases ns with
      | nil => rfl
      | cons a rest => rfl
  refine ⟨hrun, ?_⟩
  rw [hrun]
  rfl

/-- Witness for C5: the second session empty, first session nonempty. -/
theorem calibration_empty_session_fails_witness :
    calibratorRun [1/2] [] = (none, none) ∧
    applyCalibration (initFields (1/2) (15/100) 3 5) (calibratorRun [1/2] []) =
      initFields (1/2) (15/100) 3 5 :=
  calibration_empty_session_fails [1/2] [] (initFields (1/2) (15/100) 3 5) (Or.inr rfl)

end SmileVolume

namespace SmileVolume

open HysteresisStateMachine VolumeController SmileDetector

/-! ### C6 -/

/-- C6: from a freshly constructed rate limiter, `set_volume 50` twice
within `min_interval` ms without `force` issues exactly one external
command (first issued, second suppressed); `set_volume 50` then
`set_volume 80` within the same window issues two commands; and a call
with `force = true` always issues a command, for every controller state,
time and value. -/
theorem rate_limiter_scenarios (mi : ℤ) (t1 t2 : ℚ)
    (h : (t2 - t1) * 1000 < (mi : ℚ)) :
    ((VolumeController.construct mi).set_volume t1 50 false).2 = true ∧
    ((((VolumeController.construct mi).set_volume t1 50 false).1).set_volume
        t2 50 false).2 = false ∧
    ((((VolumeController.construct mi).set_volume t1 50 false).1).set_volume
        t2 80 false).2 = true ∧
    (∀ (c : VolumeController) (now : ℚ) (pct : ℤ),
        (c.set_volume now pct true).2 = true) := by
  have h1 : (VolumeController.construct mi).set_volume t1 50 false =
      (⟨mi, t1, some 50⟩, true) := by
    simp [VolumeController.construct, set_volume, clampPct]
  refine ⟨by rw [h1], ?_, ?_, ?_⟩
  · rw [h1]
    simp [set_volume, clampPct, h]
  · rw [h1]
    simp [set_volume, clampPct]
  · intro c now pct
    simp [set_volume]

/-- Witness for C6 at `min_interval_ms = 250`, `t1 = 0`, `t2 = 1/10`. -/
theorem rate_limiter_scenarios_witness :
    ((VolumeController.construct 250).set_volume 0 50 false).2 = true ∧
    ((((VolumeController.construct 250).set_volume 0 50 false).1).set_volume
        (1/10) 50 false).2 = false ∧
    ((((VolumeController.construct 250).set_volume 0 50 false).1).set_volume
        (1/10) 80 false).2 = true ∧
    (∀ (c : VolumeController) (now : ℚ) (pct : ℤ),
        (c.set_volume now pct true).2 = true) :=
  rate_limiter_scenarios 250 0 (1/10) (by norm_num)

/-! ### C10 -/

/-- C10: a suppressed `set_volume` call (not forced, clamped value equal to
the last committed value, elapsed time strictly below `min_interval`)
leaves the whole rate-limiter state — in particular the last-committed
value and timestamp — unchanged, and conversely every call that issues an
external command updates both together, to the commanded (clamped) value
and the current time. -/
theorem set_volume_frame (c : VolumeController) (now : ℚ) (pct : ℤ)
    (force : Bool) :
    ((c.set_volume now pct force).2 = false → (c.set_volume now pct force).1 = c) ∧
    ((c.set_volume now pct force).2 = true →
        (c.set_volume now pct force).1.last_set_value = some (clampPct pct) ∧
        (c.set_volume now pct force).1.last_set_time = now) ∧
    (force = false → c.last_set_value = some (clampPct pct) →
        (now - c.last_set_time) * 1000 < (c.min_interval_ms : ℚ) →
        (c.set_volume now pct force).2 = false) := by
  simp only [set_volume]
  by_cases hcond : ¬force = true ∧ c.last_set_value = some (clampPct pct) ∧
      (now - c.last_set_time) * 1000 < (c.min_interval_ms : ℚ)
  · rw [if_pos hcond]
    refine ⟨fun _ => rfl, fun hfalse => by simp at hfalse, fun _ _ _ => rfl⟩
  · rw [if_neg hcond]
    refine ⟨fun htrue => by simp at htrue, fun _ => ⟨rfl, rfl⟩, ?_⟩
    intro hforce hval helapsed
    exact absurd ⟨by simp [hforce], hval, helapsed⟩ hcond

/-- Witness for C10: a suppressed call and an issued call on a concrete
controller. -/
theorem set_volume_frame_witness :
    (((⟨250, 0, some 50⟩ : VolumeController).set_volume (1/10) 50 false).2 = false →
        (((⟨250, 0, some 50⟩ : VolumeController).set_volume (1/10) 50 false).1 =
          (⟨250, 0, some 50⟩ : VolumeController))) ∧
    (((⟨250, 0, some 50⟩ : VolumeController).set_volume (1/10) 50 false).2 = true →
        (((⟨250, 0, some 50⟩ : VolumeController).set_volume (1/10) 50 false).1.last_set_value =
            some (clampPct 50) ∧
          ((⟨250, 0, some 50⟩ : VolumeController).set_volume (1/10) 50 false).1.last_set_time =
            1/10)) ∧
    (false = false → (⟨250, 0, some 50⟩ : VolumeController).last_set_value = some (clampPct 50) →
        ((1/10 : ℚ) - (⟨250, 0, some 50⟩ : VolumeController).last_set_time) * 1000 <
          (((⟨250, 0, some 50⟩ : VolumeController).min_interval_ms : ℤ) : ℚ) →
        ((⟨250, 0, some 50⟩ : VolumeController).set_volume (1/10) 50 false).2 = false) :=
  set_volume_frame ⟨250, 0, some 50⟩ (1/10) 50 false

end SmileVolume

namespace SmileVolume

open HysteresisStateMachine VolumeController SmileDetector

/-! ### C1 -/

/-- C1 counterexample: replacing the thresholds of an existing (valid)
machine with a pair where `off_threshold >= on_threshold` is NOT rejected.
A degenerate calibration (neutral session mean `0.9`, smiling session mean
`0.1`) returns the complete pair `(0.22, 0.78)`, and the post-calibration
assignment installs it verbatim: afterwards `off_threshold >= on_threshold`
holds and the machine differs from its prior state. -/
theorem calibrate_installs_invalid_thresholds :
    (applyCalibration (initFields (1/2) (15/100) 3 5)
        (calibratorRun [9/10] [1/10])).off_threshold ≥
      (applyCalibration (initFields (1/2) (15/100) 3 5)
        (calibratorRun [9/10] [1/10])).on_threshold ∧
    applyCalibration (initFields (1/2) (15/100) 3 5) (calibratorRun [9/10] [1/10]) ≠
      initFields (1/2) (15/100) 3 5 := by
  norm_num [applyCalibration, calibratorRun, captureAverageScore, calibMargin, initFields]

/-- C1 (amended): constructing a machine with `off_threshold >=
on_threshold` is rejected with a `ValueError` (no machine is produced),
and a valid pair is accepted; but replacing the thresholds of an existing
machine after calibration performs no validation: any complete calibration
result is installed verbatim (all other fields unchanged), and only an
incomplete (`None`-bearing) result leaves the machine unmodified. -/
theorem construct_rejects_calibrate_does_not (onT offT a b : ℚ)
    (onF offF : ℤ) (m : HysteresisStateMachine)
    (hbad : offT ≥ onT) (hgood : b < a) :
    construct onT offT onF offF =
      Except.error "off_threshold must be < on_threshold for hysteresis" ∧
    construct a b onF offF = Except.ok (initFields a b onF offF) ∧
    (∀ p q : ℚ, applyCalibration m (some p, some q) =
        { m with on_threshold := p, off_threshold := q }) ∧
    (∀ r : Option ℚ × Option ℚ, r.1 = none ∨ r.2 = none →
        applyCalibration m r = m) := by
  refine ⟨?_, ?_, fun p q => rfl, ?_⟩
  · rw [HysteresisStateMachine.construct, if_pos hbad]
  · rw [HysteresisStateMachine.construct, if_neg (not_le.mpr hgood)]
  · rintro ⟨r1, r2⟩ (h | h) <;> subst h
    · rfl
    · cases r1 <;> rfl

/-- Witness for the amended C1 at concrete thresholds. -/
theorem construct_rejects_calibrate_does_not_witness :
    construct (1/10) (1/2) 3 5 =
      Except.error "off_threshold must be < on_threshold for hysteresis" ∧
    construct (1/2) (15/100) 3 5 = Except.ok (initFields (1/2) (15/100) 3 5) ∧
    (∀ p q : ℚ, applyCalibration (initFields (1/2) (15/100) 3 5) (some p, some q) =
        { initFields (1/2) (15/100) 3 5 with on_threshold := p, off_threshold := q }) ∧
    (∀ r : Option ℚ × Option ℚ, r.1 = none ∨ r.2 = none →
        applyCalibration (initFields (1/2) (15/100) 3 5) r =
          initFields (1/2) (15/100) 3 5) :=
  construct_rejects_calibrate_does_not (1/10) (1/2) (1/2) (15/100) 3 5
    (initFields (1/2) (15/100) 3 5) (by norm_num) (by norm_num)

/-! ### C8 -/

/-- C8: the Signal Conditioner returns `Absent` (`None`) if and only if the
cycle's raw input is absent and the elapsed time since the last present
observation strictly exceeds the configured timeout; on every absent-input
cycle within the timeout it returns the previous accumulator value and the
detector state — accumulator and last-signal-seen timestamp included — is
left completely unchanged. -/
theorem conditioner_absent_iff (d : SmileDetector) (now : ℚ)
    (raw : Option ℚ) :
    ((d.observe now raw).2 = none ↔
        raw = none ∧ (now - d.last_face_time) * 1000 > d.face_timeout_ms) ∧
    (raw = none → (now - d.last_face_time) * 1000 ≤ d.face_timeout_ms →
        (d.observe now raw).2 = some d.smoothed_score ∧
        (d.observe now raw).1 = d) := by
  cases raw with
  | some r =>
      constructor
      · simp [observe]
      · intro hr
        exact absurd hr (by simp)
  | none =>
      constructor
      · by_cases htimeout : (now - d.last_face_time) * 1000 > d.face_timeout_ms
        · simp [observe, htimeout]
        · simp [observe, htimeout]
      · intro _ hle
        have hnot : ¬((now - d.last_face_time) * 1000 > d.face_timeout_ms) :=
          not_lt.mpr hle
        simp [observe, hnot]

/-- Witness for C8: an absent cycle within the timeout echoes the
accumulator and leaves the detector unchanged. -/
theorem conditioner_absent_iff_witness :
    ((⟨7/10, 800, 1/2, 0⟩ : SmileDetector).observe (1/10) none).2 = some (1/2) ∧
    ((⟨7/10, 800, 1/2, 0⟩ : SmileDetector).observe (1/10) none).1 =
      (⟨7/10, 800, 1/2, 0⟩ : SmileDetector) :=
  (conditioner_absent_iff ⟨7/10, 800, 1/2, 0⟩ (1/10) none).2 rfl (by norm_num)

/-! ### C9 -/

/-- C9 counterexample: the raw score is NOT clamped into `[0,1]` before the
EMA update.  With `beta = 0.7`, accumulator `0` and the out-of-range raw
score `2`, the source's update produces `0.7 * 2 = 1.4` (outside `[0,1]`),
whereas the clamped variant described by the spec would produce `0.7`. -/
theorem observe_does_not_clamp :
    ((⟨7/10, 800, 0, 0⟩ : SmileDetector).observe 0 (some 2)).1.smoothed_score = 7/5 ∧
    ((⟨7/10, 800, 0, 0⟩ : SmileDetector).observeClamped 0 (some 2)).1.smoothed_score = 7/10 ∧
    (⟨7/10, 800, 0, 0⟩ : SmileDetector).observe 0 (some 2) ≠
      (⟨7/10, 800, 0, 0⟩ : SmileDetector).observeClamped 0 (some 2) := by
  refine ⟨by norm_num [observe], by norm_num [observeClamped, observe], ?_⟩
  intro hcontra
  have := congrArg (fun r => r.1.smoothed_score) hcontra
  norm_num [observe, observeClamped] at this

/-- C9 (amended): a present raw score is used directly — unclamped — in
the EMA update: for every detector state, time and raw value (in range or
not) the new accumulator is exactly `beta * raw + (1 - beta) * accum`, and
that value is returned. -/
theorem observe_present_exact_ema (d : SmileDetector) (now raw : ℚ) :
    (d.observe now (some raw)).1.smoothed_score =
      d.ema_beta * raw + (1 - d.ema_beta) * d.smoothed_score ∧
    (d.observe now (some raw)).2 =
      some (d.ema_beta * raw + (1 - d.ema_beta) * d.smoothed_score) ∧
    (d.observe now (some raw)).1.last_face_time = now := by
  refine ⟨rfl, rfl, rfl⟩

end SmileVolume

namespace SmileVolume

namespace HysteresisStateMachine

/-- `update` never touches the configured thresholds or frame counts. -/
lemma update_fst_config (m : HysteresisStateMachine) (s : Option ℚ) :
    (update m s).1.on_threshold = m.on_threshold ∧
    (update m s).1.off_threshold = m.off_threshold ∧
    (update m s).1.on_frames = m.on_frames ∧
    (update m s).1.off_frames = m.off_frames := by
  rcases m with ⟨onT, offT, onF, offF, st, oc, fc⟩
  cases st <;> simp only [update] <;> split_ifs <;> simp

lemma steps_cons (m : HysteresisStateMachine) (x : Option ℚ)
    (xs : List (Option ℚ)) : steps m (x :: xs) = steps (update m x).1 xs := rfl

lemma steps_append_one (m : HysteresisStateMachine) (tr : List (Option ℚ))
    (s : Option ℚ) : steps m (tr ++ [s]) = (update (steps m tr) s).1 := by
  simp [steps, List.foldl_append]

/-- Iterated `update` never touches the configured thresholds or frame
counts. -/
lemma steps_config (m : HysteresisStateMachine) (tr : List (Option ℚ)) :
    (steps m tr).on_threshold = m.on_threshold ∧
    (steps m tr).off_threshold = m.off_threshold ∧
    (steps m tr).on_frames = m.on_frames ∧
    (steps m tr).off_frames = m.off_frames := by
  induction tr generalizing m with
  | nil => exact ⟨rfl, rfl, rfl, rfl⟩
  | cons x xs ih =>
      rw [steps_cons]
      obtain ⟨h1, h2, h3, h4⟩ := ih (update m x).1
      obtain ⟨g1, g2, g3, g4⟩ := update_fst_config m x
      exact ⟨h1.trans g1, h2.trans g2, h3.trans g3, h4.trans g4⟩

lemma tailQualified_zero (p : Option ℚ → Prop) (tr : List (Option ℚ)) :
    tailQualified p 0 tr := ⟨Nat.zero_le _, by simp⟩

lemma tailQualified_mono (p : Option ℚ → Prop) (j k : ℕ)
    (tr : List (Option ℚ)) (hjk : j ≤ k) (h : tailQualified p k tr) :
    tailQualified p j tr := by
  refine ⟨le_trans hjk h.1, fun x hx => h.2 x ?_⟩
  have hrw : tr.reverse.take j = (tr.reverse.take k).take j := by
    rw [List.take_take, min_eq_left hjk]
  rw [hrw] at hx
  exact List.take_subset _ _ hx

lemma tailQualified_snoc (p : Option ℚ → Prop) (k : ℕ)
    (tr : List (Option ℚ)) (s : Option ℚ)
    (h : tailQualified p k tr) (hs : p s) :
    tailQualified p (k + 1) (tr ++ [s]) := by
  refine ⟨by simpa using Nat.succ_le_succ h.1, ?_⟩
  intro x hx
  rw [List.reverse_append] at hx
  simp only [List.reverse_cons, List.reverse_nil, List.nil_append,
    List.singleton_append, List.take_succ_cons] at hx
  rcases List.mem_cons.mp hx with hx | hx
  · subst hx
    exact hs
  · exact h.2 x hx

/-- One-step preservation of the counter invariant. -/
lemma counterInv_snoc (m0 : HysteresisStateMachine) (tr : List (Option ℚ))
    (s : Option ℚ) (ih : CounterInv m0 tr) : CounterInv m0 (tr ++ [s]) := by
  obtain ⟨ih1, ih2⟩ := ih
  obtain ⟨hcOn, hcOff, -, -⟩ := steps_config m0 tr
  unfold CounterInv
  rw [steps_append_one]
  rcases hms : steps m0 tr with ⟨onT, offT, onF, offF, st, oc, fc⟩
  rw [hms] at ih1 ih2 hcOn hcOff
  simp only at ih1 ih2 hcOn hcOff
  cases st with
  | NOT_SMILING =>
      have htq := ih1 rfl
      simp only [update]
      split_ifs with hq hcnt
      · exact ⟨fun hcontra => by simp at hcontra,
          fun _ => tailQualified_zero _ _⟩
      · refine ⟨fun _ => ?_, fun hcontra => by simp at hcontra⟩
        refine tailQualified_snoc _ _ _ _ htq ?_
        rw [← hcOn]
        exact hq
      · exact ⟨fun _ => tailQualified_zero _ _,
          fun hcontra => by simp at hcontra⟩
  | SMILING =>
      have htq := ih2 rfl
      simp only [update]
      split_ifs with hq hcnt
      · exact ⟨fun _ => tailQualified_zero _ _,
          fun hcontra => by simp at hcontra⟩
      · refine ⟨fun hcontra => by simp at hcontra, fun _ => ?_⟩
        refine tailQualified_snoc _ _ _ _ htq ?_
        rw [← hcOff]
        exact hq
      · exact ⟨fun hcontra => by simp at hcontra,
          fun _ => tailQualified_zero _ _⟩

/-- The counter invariant holds along every score trace from a machine
whose counters start at zero. -/
lemma counterInv_all (m0 : HysteresisStateMachine) (h1 : m0.onCounter = 0)
    (h2 : m0.offCounter = 0) (tr : List (Option ℚ)) : CounterInv m0 tr := by
  induction tr using List.reverseRecOn with
  | nil =>
      refine ⟨fun _ => ?_, fun _ => ?_⟩
      · simp only [steps, List.foldl_nil, h1]
        exact tailQualified_zero _ _
      · simp only [steps, List.foldl_nil, h2]
        exact tailQualified_zero _ _
  | append_singleton xs x ih => exact counterInv_snoc m0 xs x ih

end HysteresisStateMachine

end SmileVolume

namespace SmileVolume

namespace HysteresisStateMachine

/-- If a single `update` moves the machine from `NOT_SMILING` to
`SMILING`, then this cycle's score reached `on_threshold` and the
incremented consecutive counter reached `on_frames`. -/
lemma update_transition_on (m : HysteresisStateMachine) (s : Option ℚ)
    (h1 : m.state = SmileState.NOT_SMILING)
    (h2 : (update m s).1.state = SmileState.SMILING) :
    toScore s ≥ m.on_threshold ∧ ((m.onCounter + 1 : ℕ) : ℤ) ≥ m.on_frames := by
  rcases m with ⟨a, b, fOn, fOff, st, oc, fc⟩
  simp only at h1
  subst h1
  simp only [update] at h2
  split_ifs at h2 with hq hcnt
  exact ⟨hq, hcnt⟩

/-- If a single `update` moves the machine from `SMILING` to
`NOT_SMILING`, then this cycle's score fell to `off_threshold` and the
incremented consecutive counter reached `off_frames`. -/
lemma update_transition_off (m : HysteresisStateMachine) (s : Option ℚ)
    (h1 : m.state = SmileState.SMILING)
    (h2 : (update m s).1.state = SmileState.NOT_SMILING) :
    toScore s ≤ m.off_threshold ∧ ((m.offCounter + 1 : ℕ) : ℤ) ≥ m.off_frames := by
  rcases m with ⟨a, b, fOn, fOff, st, oc, fc⟩
  simp only at h1
  subst h1
  simp only [update] at h2
  split_ifs at h2 with hq hcnt
  exact ⟨hq, hcnt⟩

/-- C2: for every threshold pair with `off_threshold < on_threshold` and
every score sequence fed to `update` from the freshly constructed machine,
the state never changes `NOT_SMILING → SMILING` unless the `on_frames`
cycles immediately preceding the change (the changing cycle included) all
scored at least `on_threshold`, and never changes `SMILING → NOT_SMILING`
unless the `off_frames` immediately preceding cycles all scored at most
`off_threshold` (absent scores count as `0.0`; a non-positive frame count
imposes no constraint, matching the source's `>=` counter test). -/
theorem hysteresis_no_unconfirmed_toggle
    (onT offT : ℚ) (onF offF : ℤ) (_hyst : offT < onT)
    (tr : List (Option ℚ)) (s : Option ℚ) :
    (((steps (initFields onT offT onF offF) tr).state = SmileState.NOT_SMILING ∧
        (update (steps (initFields onT offT onF offF) tr) s).1.state =
          SmileState.SMILING) →
        onF.toNat ≤ tr.length + 1 ∧
        ∀ x ∈ (tr ++ [s]).reverse.take onF.toNat, toScore x ≥ onT) ∧
    (((steps (initFields onT offT onF offF) tr).state = SmileState.SMILING ∧
        (update (steps (initFields onT offT onF offF) tr) s).1.state =
          SmileState.NOT_SMILING) →
        offF.toNat ≤ tr.length + 1 ∧
        ∀ x ∈ (tr ++ [s]).reverse.take offF.toNat, toScore x ≤ offT) := by
  constructor
  · rintro ⟨h1, h2⟩
    obtain ⟨hq, hcnt⟩ := update_transition_on _ s h1 h2
    obtain ⟨inv1, -⟩ := counterInv_all (initFields onT offT onF offF) rfl rfl tr
    have htq := inv1 h1
    rw [(steps_config (initFields onT offT onF offF) tr).1] at hq
    rw [(steps_config (initFields onT offT onF offF) tr).2.2.1] at hcnt
    have hle : onF.toNat ≤ (steps (initFields onT offT onF offF) tr).onCounter + 1 :=
      Int.toNat_le.mpr hcnt
    have hsnoc := tailQualified_snoc _ _ tr s htq hq
    exact ⟨le_trans hle (Nat.succ_le_succ htq.1),
      fun x hx => (tailQualified_mono _ onF.toNat _ (tr ++ [s]) hle hsnoc).2 x hx⟩
  · rintro ⟨h1, h2⟩
    obtain ⟨hq, hcnt⟩ := update_transition_off _ s h1 h2
    obtain ⟨-, inv2⟩ := counterInv_all (initFields onT offT onF offF) rfl rfl tr
    have htq := inv2 h1
    rw [(steps_config (initFields onT offT onF offF) tr).2.1] at hq
    rw [(steps_config (initFields onT offT onF offF) tr).2.2.2] at hcnt
    have hle : offF.toNat ≤ (steps (initFields onT offT onF offF) tr).offCounter + 1 :=
      Int.toNat_le.mpr hcnt
    have hsnoc := tailQualified_snoc _ _ tr s htq hq
    exact ⟨le_trans hle (Nat.succ_le_succ htq.1),
      fun x hx => (tailQualified_mono _ offF.toNat _ (tr ++ [s]) hle hsnoc).2 x hx⟩

/-- Witness for C2: the transition to `SMILING` on the third `0.6` after
two `0.6` cycles is covered by three qualifying cycles. -/
theorem hysteresis_no_unconfirmed_toggle_witness :
    (3 : ℤ).toNat ≤ [some (6/10 : ℚ), some (6/10)].length + 1 ∧
    ∀ x ∈ ([some (6/10 : ℚ), some (6/10)] ++ [some (6/10)]).reverse.take (3 : ℤ).toNat,
      toScore x ≥ (1/2 : ℚ) :=
  (hysteresis_no_unconfirmed_toggle (1/2) (15/100) 3 5 (by norm_num)
      [some (6/10), some (6/10)] (some (6/10))).1
    (by norm_num [steps, update, toScore, initFields])

end HysteresisStateMachine

end SmileVolume

namespace SmileVolume
namespace SmileDetector

lemma observe_fst_beta (d : SmileDetector) (t : ℚ) (r : Option ℚ) :
    ((d.observe t r).1).ema_beta = d.ema_beta := by
  cases r with
  | some x => rfl
  | none =>
      simp only [observe]
      split_ifs <;> rfl

lemma observeIter_beta (d : SmileDetector) (raw : ℚ) (ts : ℕ → ℚ) (n : ℕ) :
    (observeIter d raw ts n).ema_beta = d.ema_beta := by
  induction n with
  | zero => rfl
  | succ n ih => exact (observe_fst_beta _ _ _).trans ih

lemma observeIter_sub (d : SmileDetector) (raw : ℚ) (ts : ℕ → ℚ) (n : ℕ) :
    (observeIter d raw ts (n + 1)).smoothed_score - raw =
      (1 - d.ema_beta) * ((observeIter d raw ts n).smoothed_score - raw) := by
  have hb := observeIter_beta d raw ts n
  show ((observeIter d raw ts n).observe (ts n) (some raw)).1.smoothed_score - raw = _
  simp only [observe]
  rw [hb]
  ring

lemma observeIter_dist (d : SmileDetector) (raw : ℚ) (ts : ℕ → ℚ)
    (hβ1 : d.ema_beta ≤ 1) (n : ℕ) :
    |(observeIter d raw ts n).smoothed_score - raw| =
      (1 - d.ema_beta) ^ n * |d.smoothed_score - raw| := by
  induction n with
  | zero => simp [observeIter]
  | succ n ih =>
      rw [observeIter_sub, abs_mul, abs_of_nonneg (by linarith), ih, pow_succ]
      ring

lemma observeIter_le_raw (d : SmileDetector) (raw : ℚ) (ts : ℕ → ℚ)
    (hβ1 : d.ema_beta ≤ 1) (h : d.smoothed_score ≤ raw) (n : ℕ) :
    (observeIter d raw ts n).smoothed_score ≤ raw := by
  induction n with
  | zero => exact h
  | succ n ih =>
      have hsub := observeIter_sub d raw ts n
      have hprod : (1 - d.ema_beta) * ((observeIter d raw ts n).smoothed_score - raw) ≤ 0 :=
        mul_nonpos_iff.mpr (Or.inl ⟨by linarith, by linarith⟩)
      linarith

lemma observeIter_ge_raw (d : SmileDetector) (raw : ℚ) (ts : ℕ → ℚ)
    (hβ1 : d.ema_beta ≤ 1) (h : raw ≤ d.smoothed_score) (n : ℕ) :
    raw ≤ (observeIter d raw ts n).smoothed_score := by
  induction n with
  | zero => exact h
  | succ n ih =>
      have hsub := observeIter_sub d raw ts n
      have hprod : 0 ≤ (1 - d.ema_beta) * ((observeIter d raw ts n).smoothed_score - raw) :=
        mul_nonneg (by linarith) (by linarith)
      linarith

lemma observe_step_range (d : SmileDetector) (t : ℚ) (r : Option ℚ)
    (hβ0 : 0 ≤ d.ema_beta) (hβ1 : d.ema_beta ≤ 1)
    (h0 : 0 ≤ d.smoothed_score) (h1 : d.smoothed_score ≤ 1)
    (hr : ∀ x : ℚ, r = some x → 0 ≤ x ∧ x ≤ 1) :
    0 ≤ ((d.observe t r).1).smoothed_score ∧ ((d.observe t r).1).smoothed_score ≤ 1 := by
  cases r with
  | none =>
      simp only [observe]
      split_ifs <;> exact ⟨h0, h1⟩
  | some x =>
      obtain ⟨hx0, hx1⟩ := hr x rfl
      simp only [observe]
      constructor <;> nlinarith

lemma observeFold_range (d : SmileDetector) (inputs : List (ℚ × Option ℚ))
    (hβ0 : 0 ≤ d.ema_beta) (hβ1 : d.ema_beta ≤ 1)
    (h0 : 0 ≤ d.smoothed_score) (h1 : d.smoothed_score ≤ 1)
    (hins : ∀ p ∈ inputs, ∀ x : ℚ, p.2 = some x → 0 ≤ x ∧ x ≤ 1) :
    0 ≤ (observeFold d inputs).smoothed_score ∧
      (observeFold d inputs).smoothed_score ≤ 1 := by
  induction inputs generalizing d with
  | nil => exact ⟨h0, h1⟩
  | cons p ps ih =>
      have hstep := observe_step_range d p.1 p.2 hβ0 hβ1 h0 h1
        (fun x hx => hins p (by simp) x hx)
      have hbeta := observe_fst_beta d p.1 p.2
      exact ih (d.observe p.1 p.2).1 (hbeta ▸ hβ0) (hbeta ▸ hβ1) hstep.1 hstep.2
        (fun q hq x hx => hins q (by simp [hq]) x hx)

/-- C7: for every smoothing factor `beta` in `(0, 1]`, repeatedly calling
`observe` with the same constant present raw score drives the returned
smoothed value monotonically toward that raw score (the distance to `raw`
never increases, decays exactly geometrically with ratio `1 - beta`, the
sequence is monotone in the direction of `raw`, and gets below every
positive `ε`), and the EMA accumulator stays in `[0, 1]` across every
sequence of operations whose present raw inputs lie in `[0, 1]`. -/
theorem ema_monotone_convergence_and_range (β : ℚ) (hβ0 : 0 < β) (hβ1 : β ≤ 1) :
    (∀ (d : SmileDetector) (raw : ℚ) (ts : ℕ → ℚ), d.ema_beta = β →
        (∀ n : ℕ, |(observeIter d raw ts (n + 1)).smoothed_score - raw| ≤
            |(observeIter d raw ts n).smoothed_score - raw|) ∧
        (∀ n : ℕ, |(observeIter d raw ts n).smoothed_score - raw| =
            (1 - β) ^ n * |d.smoothed_score - raw|) ∧
        (d.smoothed_score ≤ raw → ∀ n : ℕ,
            (observeIter d raw ts n).smoothed_score ≤
              (observeIter d raw ts (n + 1)).smoothed_score ∧
            (observeIter d raw ts n).smoothed_score ≤ raw) ∧
        (raw ≤ d.smoothed_score → ∀ n : ℕ,
            (observeIter d raw ts (n + 1)).smoothed_score ≤
              (observeIter d raw ts n).smoothed_score ∧
            raw ≤ (observeIter d raw ts n).smoothed_score) ∧
        (∀ ε : ℚ, 0 < ε → ∃ N : ℕ, ∀ n : ℕ, N ≤ n →
            |(observeIter d raw ts n).smoothed_score - raw| < ε)) ∧
    (∀ (d : SmileDetector) (inputs : List (ℚ × Option ℚ)), d.ema_beta = β →
        0 ≤ d.smoothed_score → d.smoothed_score ≤ 1 →
        (∀ p ∈ inputs, ∀ x : ℚ, p.2 = some x → 0 ≤ x ∧ x ≤ 1) →
        0 ≤ (observeFold d inputs).smoothed_score ∧
          (observeFold d inputs).smoothed_score ≤ 1) := by
  constructor
  · intro d raw ts hd
    have hb1 : d.ema_beta ≤ 1 := hd ▸ hβ1
    have hb0 : 0 ≤ d.ema_beta := hd ▸ le_of_lt hβ0
    refine ⟨?_, ?_, ?_, ?_, ?_⟩
    · intro n
      rw [observeIter_dist d raw ts hb1 (n + 1), observeIter_dist d raw ts hb1 n, pow_succ]
      have hfac0 : (0:ℚ) ≤ (1 - d.ema_beta) ^ n := pow_nonneg (by linarith) n
      have habs : (0:ℚ) ≤ |d.smoothed_score - raw| := abs_nonneg _
      have hkey : (0:ℚ) ≤ d.ema_beta * ((1 - d.ema_beta) ^ n * |d.smoothed_score - raw|) :=
        mul_nonneg hb0 (mul_nonneg hfac0 habs)
      calc (1 - d.ema_beta) ^ n * (1 - d.ema_beta) * |d.smoothed_score - raw|
          = (1 - d.ema_beta) ^ n * |d.smoothed_score - raw|
            - d.ema_beta * ((1 - d.ema_beta) ^ n * |d.smoothed_score - raw|) := by ring
        _ ≤ (1 - d.ema_beta) ^ n * |d.smoothed_score - raw| := by linarith
    · intro n
      rw [observeIter_dist d raw ts hb1 n, hd]
    · intro hle n
      refine ⟨?_, observeIter_le_raw d raw ts hb1 hle n⟩
      have hsub := observeIter_sub d raw ts n
      have hlen := observeIter_le_raw d raw ts hb1 hle n
      have hprod : 0 ≤ d.ema_beta * (raw - (observeIter d raw ts n).smoothed_score) :=
        mul_nonneg hb0 (by linarith)
      linarith
    · intro hge n
      refine ⟨?_, observeIter_ge_raw d raw ts hb1 hge n⟩
      have hsub := observeIter_sub d raw ts n
      have hgen := observeIter_ge_raw d raw ts hb1 hge n
      have hprod : 0 ≤ d.ema_beta * ((observeIter d raw ts n).smoothed_score - raw) :=
        mul_nonneg hb0 (by linarith)
      linarith
    · intro ε hε
      by_cases habs : |d.smoothed_score - raw| = 0
      · refine ⟨0, fun n _ => ?_⟩
        rw [observeIter_dist d raw ts hb1 n, habs, mul_zero]
        exact hε
      · have habs' : 0 < |d.smoothed_score - raw| :=
          lt_of_le_of_ne (abs_nonneg _) (Ne.symm habs)
        obtain ⟨N, hN⟩ := exists_pow_lt_of_lt_one
          (div_pos hε habs') (show (1:ℚ) - d.ema_beta < 1 by linarith [hd ▸ hβ0])
        refine ⟨N, fun n hn => ?_⟩
        rw [observeIter_dist d raw ts hb1 n]
        have hmono : (1 - d.ema_beta) ^ n ≤ (1 - d.ema_beta) ^ N :=
          pow_le_pow_of_le_one (by linarith) (by linarith) hn
        calc (1 - d.ema_beta) ^ n * |d.smoothed_score - raw|
            ≤ (1 - d.ema_beta) ^ N * |d.smoothed_score - raw| := by
              exact mul_le_mul_of_nonneg_right hmono (abs_nonneg _)
          _ < (ε / |d.smoothed_score - raw|) * |d.smoothed_score - raw| := by
              exact mul_lt_mul_of_pos_right hN habs'
          _ = ε := div_mul_cancel₀ ε (ne_of_gt habs')
  · intro d inputs hd h0 h1 hins
    exact observeFold_range d inputs (hd ▸ le_of_lt hβ0) (hd ▸ hβ1) h0 h1 hins

end SmileDetector
end SmileVolume

namespace SmileVolume
namespace SmileDetector

/-- Witness for C7 at `beta = 0.7` with a single in-range observation. -/
theorem ema_monotone_convergence_and_range_witness :
    0 ≤ (observeFold ⟨7/10, 800, 0, 0⟩ [((0:ℚ), some (1/2 : ℚ))]).smoothed_score ∧
      (observeFold ⟨7/10, 800, 0, 0⟩ [((0:ℚ), some (1/2 : ℚ))]).smoothed_score ≤ 1 :=
  (ema_monotone_convergence_and_range (7/10) (by norm_num) (by norm_num)).2
    ⟨7/10, 800, 0, 0⟩ [((0:ℚ), some (1/2))] rfl (by norm_num) (by norm_num)
    (by
      rintro p hp x hx
      simp only [List.mem_singleton] at hp
      subst hp
      simp only [Option.some.injEq] at hx
      subst hx
      norm_num)

end SmileDetector
end SmileVolume
